import Mathlib

/-!
Verification of `genbase_test_helpers` (`src/genbase_test_helpers/__init__.py`):
a deterministic classifier adapter (`DeterministicTextClassifier`) plus two
fixture utilities (`corrupt`, `random_combinations`).

The adapter code is embedded directly from the source.  The helpers it imports
from the external `instancelib` package (`divide_iterable_in_lists`,
`zip_chain`, `DictionaryEncoder`) are not part of this repository; they are
modelled from the specification's description of their behaviour and are marked
as such.  Randomness (`random.choice`, `random.sample`) is modelled by passing
the stream of random outcomes as an explicit parameter.  NumPy score matrices
are modelled as lists of rows over an arbitrary linearly ordered score type.
-/

namespace GenbaseTestHelpers

/-! ### Modelled instancelib helpers -/

/-- Auxiliary fuel-indexed recursion for `divide_iterable_in_lists`. -/
def divideGo (b : Nat) : Nat → List α → List (List α)
  | _, [] => []
  | 0, _ :: _ => []
  | fuel + 1, x :: xs => (x :: xs).take b :: divideGo b fuel ((x :: xs).drop b)

/-- Modelled from the spec: `instancelib.utils.chunks.divide_iterable_in_lists`
(missing from this repository) "partitions the input sequence into contiguous
batches no larger than `batch_size`, preserving original order".  Each batch
consumes at least one element when `1 ≤ b`, so `l.length` steps of `divideGo`
always suffice. -/
def divide_iterable_in_lists (l : List α) (b : Nat) : List (List α) :=
  divideGo b l.length l

/-- Modelled from the spec: `instancelib.utils.func.zip_chain` (missing from
this repository) pairs each batch's key list with that batch's result list and
"concatenates batch results preserving global order". -/
def zip_chain (l : List (List α × List β)) : List (α × β) :=
  (l.map (fun p => p.1.zip p.2)).flatten

/-- Modelled from the spec: `instancelib.labels.encoder.DictionaryEncoder`
(missing from this repository) holds the label-to-column-index dictionary.
The dictionary is represented as an association list in insertion order; a
lookup returns the value of the latest matching entry, mirroring Python's
dict-comprehension semantics where a duplicate key overwrites the value. -/
structure DictionaryEncoder (LT : Type) where
  mapping : List (LT × Nat)
deriving DecidableEq

/-- Python `dict` lookup on the association-list model: the last binding of a
key wins. `none` models a raised `KeyError` (a `LookupError` subclass). -/
def dictGet {LT : Type} [DecidableEq LT] (m : List (LT × Nat)) (k : LT) : Option Nat :=
  (m.reverse.find? (fun p => decide (p.1 = k))).map Prod.snd

/-- The keys of the modelled Python dict, in first-insertion order without
duplicates. -/
def dictKeys {LT : Type} [DecidableEq LT] (m : List (LT × Nat)) : List LT :=
  (m.map Prod.fst).dedup

/-- Builds `DictionaryEncoder({label: i for i, label in enumerate(labels)})`:
the dictionary built in `set_target_labels`. -/
def mkEncoder {LT : Type} (labels : List LT) : DictionaryEncoder LT :=
  ⟨labels.enum.map (fun p => (p.2, p.1))⟩

/-- Modelled from the spec: decoding a column index to its label through the
encoder's inverted dictionary; `none` models a failed lookup. -/
def decode_label {LT : Type} [DecidableEq LT] (e : DictionaryEncoder LT) (i : Nat) : Option LT :=
  (dictKeys e.mapping).find? (fun k => decide (dictGet e.mapping k = some i))

/-- Modelled from the spec: `DictionaryEncoder.decode_matrix` applied to the
vector of per-row argmax column indices decodes each index to its label. -/
def decode_matrix {LT : Type} [DecidableEq LT] (e : DictionaryEncoder LT) (indices : List Nat) :
    List (Option LT) :=
  indices.map (decode_label e)

/-- Modelled from the spec: `DictionaryEncoder.decode_proba_matrix` "decodes
each row into a set of (label, probability) pairs using the encoder", pairing
each column's label with that column's score. -/
def decode_proba_matrix {LT R : Type} [DecidableEq LT] (e : DictionaryEncoder LT) (m : List (List R)) :
    List (List (Option LT × R)) :=
  m.map (fun row => row.enum.map (fun p => (decode_label e p.1, p.2)))

/-- Auxiliary loop for `argmaxIdx`: carries the best index and value so far;
a strictly larger value replaces the best, so ties keep the earliest index. -/
def argmaxAux [LinearOrder R] : Nat → R → Nat → List R → Nat
  | bi, _, _, [] => bi
  | bi, bv, i, x :: xs => if bv < x then argmaxAux i x (i + 1) xs else argmaxAux bi bv (i + 1) xs

/-- Models `np.argmax` on one row: the index of the first occurrence of the maximum. -/
def argmaxIdx [LinearOrder R] : List R → Nat
  | [] => 0
  | x :: xs => argmaxAux 0 x 1 xs

/-! ### The adapter, embedded from the source -/

/-- Data payloads: `DT = str` in the source. -/
abbrev DT := String

/-- An instancelib instance as the adapter uses it: only `identifier` and
`data` are read. -/
structure Instance (KT : Type) where
  identifier : KT
  data : DT
deriving DecidableEq

/-- An instancelib provider as the adapter uses it: only its ordered
`values()` view. -/
structure InstanceProvider (KT : Type) where
  values : List (Instance KT)

/-- The adapter's state: the injected prediction function and the label
encoder. Score matrices are lists of rows over score type `R`. -/
structure DeterministicTextClassifier (KT LT R : Type) where
  predict_function : List DT → List (List R)
  encoder : DictionaryEncoder LT

namespace DeterministicTextClassifier

variable {KT LT R : Type}

/-- Source `set_target_labels`: rebuilds the encoder from the labels. -/
def set_target_labels (c : DeterministicTextClassifier KT LT R) (labels : List LT) :
    DeterministicTextClassifier KT LT R :=
  { c with encoder := mkEncoder labels }

/-- Source `__init__`: stores the prediction function and calls `set_target_labels`. -/
def init (predict_function : List DT → List (List R)) (target_labels : List LT) :
    DeterministicTextClassifier KT LT R :=
  set_target_labels { predict_function := predict_function, encoder := ⟨[]⟩ } target_labels

/-- Source `from_callable`: wraps a per-instance function, stacking one output row
per instance (`np.vstack` over the per-instance calls). -/
def from_callable (predict_function : DT → List R) (target_labels : List LT) :
    DeterministicTextClassifier KT LT R :=
  init (fun instances => instances.map predict_function) target_labels

/-- Source `from_batched_callable`: uses the batched function directly. -/
def from_batched_callable (predict_function : List DT → List (List R))
    (target_labels : List LT) : DeterministicTextClassifier KT LT R :=
  init predict_function target_labels

/-- Source `fit_instances`: returns `None` and leaves the adapter unchanged. -/
def fit_instances (c : DeterministicTextClassifier KT LT R)
    (_instances : List (Instance KT)) (_labels : List (List LT)) :
    DeterministicTextClassifier KT LT R × Unit :=
  (c, ())

/-- Source `fit_provider`: returns `None` and leaves the adapter unchanged. -/
def fit_provider (c : DeterministicTextClassifier KT LT R)
    (_provider : InstanceProvider KT) (_labels : List (KT × List LT))
    (_batch_size : Nat := 200) : DeterministicTextClassifier KT LT R × Unit :=
  (c, ())

/-- Source `_pred_proba_batch_raw`: the batch's identifiers paired with the verbatim
output of the prediction function on the batch's data. -/
def _pred_proba_batch_raw (c : DeterministicTextClassifier KT LT R)
    (batch : List (Instance KT)) : List KT × List (List R) :=
  (batch.map Instance.identifier, c.predict_function (batch.map Instance.data))

/-- Source `_pred_proba_batch`: raw batch output with each row decoded into
(label, probability) pairs. -/
def _pred_proba_batch [DecidableEq LT] (c : DeterministicTextClassifier KT LT R)
    (batch : List (Instance KT)) : List KT × List (List (Option LT × R)) :=
  let p := c._pred_proba_batch_raw batch
  (p.1, decode_proba_matrix c.encoder p.2)

/-- Source `_pred_batch`: raw batch output with each row decoded to the label of its
argmax column. -/
def _pred_batch [LinearOrder R] [DecidableEq LT] (c : DeterministicTextClassifier KT LT R)
    (batch : List (Instance KT)) : List KT × List (Option LT) :=
  let p := c._pred_proba_batch_raw batch
  (p.1, decode_matrix c.encoder (p.2.map argmaxIdx))

/-- Source `fitted`: reports `True` unconditionally. -/
def fitted (_c : DeterministicTextClassifier KT LT R) : Bool := true

/-- Source `get_label_column_index`: dictionary lookup of the label's column index;
`none` models the raised `KeyError`. -/
def get_label_column_index [DecidableEq LT] (c : DeterministicTextClassifier KT LT R)
    (label : LT) : Option Nat :=
  dictGet c.encoder.mapping label

/-- Source `predict_proba_instances_raw`: one raw (keys, matrix) pair per batch. -/
def predict_proba_instances_raw (c : DeterministicTextClassifier KT LT R)
    (instances : List (Instance KT)) (batch_size : Nat := 200) :
    List (List KT × List (List R)) :=
  (divide_iterable_in_lists instances batch_size).map c._pred_proba_batch_raw

/-- Source `predict_proba_instances`: decoded probability output, chained over
batches. -/
def predict_proba_instances [DecidableEq LT] (c : DeterministicTextClassifier KT LT R)
    (instances : List (Instance KT)) (batch_size : Nat := 200) :
    List (KT × List (Option LT × R)) :=
  zip_chain ((divide_iterable_in_lists instances batch_size).map c._pred_proba_batch)

/-- Source `predict_instances`: argmax-decoded output, chained over batches. -/
def predict_instances [LinearOrder R] [DecidableEq LT] (c : DeterministicTextClassifier KT LT R)
    (instances : List (Instance KT)) (batch_size : Nat := 200) :
    List (KT × Option LT) :=
  zip_chain ((divide_iterable_in_lists instances batch_size).map c._pred_batch)

/-- Source `predict_provider`: materializes the provider's values and delegates. -/
def predict_provider [LinearOrder R] [DecidableEq LT] (c : DeterministicTextClassifier KT LT R)
    (provider : InstanceProvider KT) (batch_size : Nat := 200) :
    List (KT × Option LT) :=
  c.predict_instances provider.values batch_size

end DeterministicTextClassifier

/-! ### Fixture utilities, embedded from the source -/

/-- The alphabet `ascii_lowercase + digits`: the 36-character alphabet `corrupt` draws
from. -/
def corruptAlphabet : List Char := "abcdefghijklmnopqrstuvwxyz0123456789".data

/-- The Python argument type `Union[Iterable[str], str]` of `corrupt`. -/
inductive StrOrStrs where
  | str : String → StrOrStrs
  | strs : List String → StrOrStrs
deriving DecidableEq

/-- Python `isinstance(x, Iterable)`: true for a list of strings and also for
a single string, since Python strings are iterable. -/
def pyIsIterable : StrOrStrs → Bool
  | _ => true

/-- Iterating a Python value: a list yields its elements; a string yields its
characters, each as a 1-character string. -/
def pyIterate : StrOrStrs → List String
  | .str s => s.data.map (fun ch => String.mk [ch])
  | .strs l => l

/-- Source `corrupt_one`: the f-string `f'\x7brandom.choice(...)\x7d\x7bname\x7d'`,
with the randomly chosen character supplied as `randChar`. -/
def corrupt_one (randChar : Char) (name : String) : String :=
  String.mk (randChar :: name.data)

/-- Source `corrupt`, with the outcomes of the successive `random.choice` calls
supplied as `rand` (call number ↦ chosen character).  The `isinstance(names,
Iterable)` test is checked before the plain-string fallthrough, exactly as in
the source. -/
def corrupt (rand : Nat → Char) (names : StrOrStrs) : StrOrStrs :=
  if pyIsIterable names then
    .strs ((pyIterate names).enum.map (fun p => corrupt_one (rand p.1) p.2))
  else
    match names with
    | .str s => .str (corrupt_one (rand 0) s)
    | .strs l => .strs l

/-- Source `random_combination(r)`: `[pool[i] for i in sorted(random.sample(range(len(pool)), r))]`,
with the outcome of `random.sample` supplied as `sample` (pool size ↦ draw
size ↦ drawn indices). -/
def random_combination (pool : List α) (sample : Nat → Nat → List Nat) (r : Nat) : List α :=
  (List.insertionSort (· ≤ ·) (sample pool.length r)).filterMap (fun i => pool[i]?)

/-- Source `random_combinations(iterable, start)`: clamps `start` into
`[0, len(pool)]`, then produces one random combination for each size in
`range(start, len(pool) + 1)`. -/
def random_combinations (iterable : List α) (start : Int)
    (sample : Nat → Nat → List Nat) : List (List α) :=
  let pool := iterable
  let start' := min pool.length (max 0 start).toNat
  (List.range' start' (pool.length + 1 - start')).map (random_combination pool sample)

/-! ### Properties of the batching helpers -/

theorem divideGo_flatten {α : Type} (b : Nat) (hb : 1 ≤ b) :
    ∀ (fuel : Nat) (l : List α), l.length ≤ fuel → (divideGo b fuel l).flatten = l
  | fuel, [], _ => by cases fuel <;> simp [divideGo]
  | 0, _ :: _, h => by simp at h
  | fuel + 1, x :: xs, h => by
      have ih := divideGo_flatten b hb fuel ((x :: xs).drop b)
        (by simp only [List.length_drop, List.length_cons] at h ⊢; omega)
      simp only [divideGo, List.flatten_cons, ih, List.take_append_drop]

/-- The batches of `divide_iterable_in_lists` concatenate back to the input:
no instance is dropped, duplicated or reordered. -/
theorem flatten_divide_iterable_in_lists {α : Type} (l : List α) (b : Nat) (hb : 1 ≤ b) :
    (divide_iterable_in_lists l b).flatten = l :=
  divideGo_flatten b hb l.length l le_rfl

theorem divideGo_length {α : Type} (b : Nat) (hb : 1 ≤ b) :
    ∀ (fuel : Nat) (l : List α), l.length ≤ fuel →
      (divideGo b fuel l).length = (l.length + b - 1) / b
  | fuel, [], _ => by
      cases fuel <;>
        simp [divideGo, Nat.div_eq_of_lt (show b - 1 < b from by omega)]
  | 0, _ :: _, h => by simp at h
  | fuel + 1, x :: xs, h => by
      have ih := divideGo_length b hb fuel ((x :: xs).drop b)
        (by simp only [List.length_drop, List.length_cons] at h ⊢; omega)
      simp only [divideGo, List.length_cons, ih, List.length_drop]
      rw [show xs.length + 1 + b - 1 = xs.length + b from by omega,
        Nat.add_div_right _ (by omega)]
      rcases le_or_lt b (xs.length + 1) with hle | hlt
      · rw [show xs.length + 1 - b + b - 1 = xs.length from by omega]
      · rw [show xs.length + 1 - b + b - 1 = b - 1 from by omega,
          Nat.div_eq_of_lt (by omega), Nat.div_eq_of_lt (by omega)]

/-- The function `divide_iterable_in_lists` produces `⌈n / b⌉` batches. -/
theorem length_divide_iterable_in_lists {α : Type} (l : List α) (b : Nat) (hb : 1 ≤ b) :
    (divide_iterable_in_lists l b).length = (l.length + b - 1) / b :=
  divideGo_length b hb l.length l le_rfl

theorem divideGo_getElem? {α : Type} (b : Nat) (hb : 1 ≤ b) :
    ∀ (fuel : Nat) (l : List α) (k : Nat), l.length ≤ fuel →
      k < (divideGo b fuel l).length →
      (divideGo b fuel l)[k]? = some ((l.drop (k * b)).take b)
  | fuel, [], k, _, hk => by cases fuel <;> simp [divideGo] at hk
  | 0, _ :: _, k, h, _ => by simp at h
  | fuel + 1, x :: xs, 0, h, hk => by simp [divideGo]
  | fuel + 1, x :: xs, k + 1, h, hk => by
      have ih := divideGo_getElem? b hb fuel ((x :: xs).drop b) k
        (by simp only [List.length_drop, List.length_cons] at h ⊢; omega)
        (by simpa [divideGo] using hk)
      simp only [divideGo, List.getElem?_cons_succ, ih, List.drop_drop]
      simp [Nat.succ_mul, Nat.add_comm]

/-- The `k`-th batch of `divide_iterable_in_lists` is the `k`-th contiguous
`b`-sized slice of the input. -/
theorem getElem?_divide_iterable_in_lists {α : Type} (l : List α) (b k : Nat) (hb : 1 ≤ b)
    (hk : k < (divide_iterable_in_lists l b).length) :
    (divide_iterable_in_lists l b)[k]? = some ((l.drop (k * b)).take b) :=
  divideGo_getElem? b hb l.length l k le_rfl hk

/-- Applying `zip_chain` over per-batch pairs of elementwise maps is an elementwise map
over the concatenation of the batches. -/
theorem zip_chain_map_pair {α β γ : Type} (f : γ → α) (g : γ → β) (L : List (List γ)) :
    zip_chain (L.map fun batch => (batch.map f, batch.map g)) =
      L.flatten.map fun c => (f c, g c) := by
  simp only [zip_chain, List.map_map, List.map_flatten]
  congr 1
  apply List.map_congr_left
  intro batch _
  simp [Function.comp, List.zip_map']

/-! ### Elementwise form of the prediction operations -/

variable {KT L R : Type}

theorem pred_batch_elementwise [LinearOrder R] [DecidableEq L]
    (c : DeterministicTextClassifier KT L R) (g : DT → List R)
    (hg : ∀ xs, c.predict_function xs = xs.map g) (batch : List (Instance KT)) :
    c._pred_batch batch =
      (batch.map Instance.identifier,
        batch.map fun ins => decode_label c.encoder (argmaxIdx (g ins.data))) := by
  simp [DeterministicTextClassifier._pred_batch,
    DeterministicTextClassifier._pred_proba_batch_raw, hg, decode_matrix,
    List.map_map, Function.comp]

theorem pred_proba_batch_elementwise [DecidableEq L]
    (c : DeterministicTextClassifier KT L R) (g : DT → List R)
    (hg : ∀ xs, c.predict_function xs = xs.map g) (batch : List (Instance KT)) :
    c._pred_proba_batch batch =
      (batch.map Instance.identifier,
        batch.map fun ins =>
          (g ins.data).enum.map fun p => (decode_label c.encoder p.1, p.2)) := by
  simp [DeterministicTextClassifier._pred_proba_batch,
    DeterministicTextClassifier._pred_proba_batch_raw, hg, decode_proba_matrix,
    List.map_map, Function.comp]

/-- When the prediction function computes each row from the corresponding
instance alone, `predict_instances` is an elementwise map over the input:
batching is invisible. -/
theorem predict_instances_elementwise [LinearOrder R] [DecidableEq L]
    (c : DeterministicTextClassifier KT L R) (g : DT → List R)
    (hg : ∀ xs, c.predict_function xs = xs.map g)
    (l : List (Instance KT)) (b : Nat) (hb : 1 ≤ b) :
    c.predict_instances l b =
      l.map fun ins =>
        (ins.identifier, decode_label c.encoder (argmaxIdx (g ins.data))) := by
  unfold DeterministicTextClassifier.predict_instances
  rw [List.map_congr_left fun batch _ => pred_batch_elementwise c g hg batch,
    zip_chain_map_pair, flatten_divide_iterable_in_lists _ _ hb]

/-- Elementwise form of `predict_proba_instances` for per-instance prediction
functions. -/
theorem predict_proba_instances_elementwise [DecidableEq L]
    (c : DeterministicTextClassifier KT L R) (g : DT → List R)
    (hg : ∀ xs, c.predict_function xs = xs.map g)
    (l : List (Instance KT)) (b : Nat) (hb : 1 ≤ b) :
    c.predict_proba_instances l b =
      l.map fun ins =>
        (ins.identifier,
          (g ins.data).enum.map fun p => (decode_label c.encoder p.1, p.2)) := by
  unfold DeterministicTextClassifier.predict_proba_instances
  rw [List.map_congr_left fun batch _ => pred_proba_batch_elementwise c g hg batch,
    zip_chain_map_pair, flatten_divide_iterable_in_lists _ _ hb]

/-! ### First-maximum characterization of `argmaxIdx` -/

/-- Index `m` is the position of the first maximum of `row`: the value at `m` bounds
every element of `row`, and every element before position `m` is strictly
smaller (the standard argmax tie-break towards the lowest index). -/
def isFirstMax [LinearOrder R] (row : List R) (m : Nat) : Prop :=
  ∃ v, row[m]? = some v ∧ (∀ x ∈ row, x ≤ v) ∧
    ∀ k x, k < m → row[k]? = some x → x < v

theorem argmaxAux_spec [LinearOrder R] :
    ∀ (xs : List R) (bi : Nat) (bv : R) (i : Nat),
      (argmaxAux bi bv i xs = bi ∧ ∀ x ∈ xs, x ≤ bv) ∨
      (∃ j v, xs[j]? = some v ∧ argmaxAux bi bv i xs = i + j ∧ bv < v ∧
        (∀ x ∈ xs, x ≤ v) ∧ ∀ k x, k < j → xs[k]? = some x → x < v)
  | [], bi, bv, i => Or.inl ⟨rfl, by simp⟩
  | x :: xs, bi, bv, i => by
      rw [argmaxAux]
      by_cases hx : bv < x
      · rw [if_pos hx]
        rcases argmaxAux_spec xs i x (i + 1) with ⟨h1, h2⟩ | ⟨j, v, hj, hres, hlt, hmax, hfirst⟩
        · refine Or.inr ⟨0, x, by simp, by rw [h1]; omega, hx, ?_, by omega⟩
          intro y hy
          rcases List.mem_cons.mp hy with rfl | hy
          · exact le_rfl
          · exact h2 y hy
        · refine Or.inr ⟨j + 1, v, by simpa using hj, by rw [hres]; omega,
            hx.trans hlt, ?_, ?_⟩
          · intro y hy
            rcases List.mem_cons.mp hy with rfl | hy
            · exact hlt.le
            · exact hmax y hy
          · intro k y hk hky
            cases k with
            | zero =>
                simp only [List.getElem?_cons_zero, Option.some_inj] at hky
                exact hky ▸ hlt
            | succ k' =>
                simp only [List.getElem?_cons_succ] at hky
                exact hfirst k' y (by omega) hky
      · rw [if_neg hx]
        have hxle : x ≤ bv := not_lt.mp hx
        rcases argmaxAux_spec xs bi bv (i + 1) with ⟨h1, h2⟩ | ⟨j, v, hj, hres, hlt, hmax, hfirst⟩
        · refine Or.inl ⟨h1, ?_⟩
          intro y hy
          rcases List.mem_cons.mp hy with rfl | hy
          · exact hxle
          · exact h2 y hy
        · refine Or.inr ⟨j + 1, v, by simpa using hj, by rw [hres]; omega, hlt, ?_, ?_⟩
          · intro y hy
            rcases List.mem_cons.mp hy with rfl | hy
            · exact hxle.trans hlt.le
            · exact hmax y hy
          · intro k y hk hky
            cases k with
            | zero =>
                simp only [List.getElem?_cons_zero, Option.some_inj] at hky
                exact hky ▸ (hxle.trans_lt hlt)
            | succ k' =>
                simp only [List.getElem?_cons_succ] at hky
                exact hfirst k' y (by omega) hky

/-- The index `argmaxIdx` of a nonempty row is the position of its first maximum. -/
theorem argmaxIdx_isFirstMax [LinearOrder R] (row : List R) (h : row ≠ []) :
    isFirstMax row (argmaxIdx row) := by
  match row, h with
  | x :: xs, _ =>
    rw [argmaxIdx]
    rcases argmaxAux_spec xs 0 x 1 with ⟨h1, h2⟩ | ⟨j, v, hj, hres, hlt, hmax, hfirst⟩
    · refine ⟨x, by rw [h1]; simp, ?_, ?_⟩
      · intro y hy
        rcases List.mem_cons.mp hy with rfl | hy
        · exact le_rfl
        · exact h2 y hy
      · intro k y hk hky
        rw [h1] at hk
        omega
    · refine ⟨v, ?_, ?_, ?_⟩
      · rw [hres, Nat.add_comm]
        simpa using hj
      · intro y hy
        rcases List.mem_cons.mp hy with rfl | hy
        · exact hlt.le
        · exact hmax y hy
      · intro k y hk hky
        rw [hres] at hk
        cases k with
        | zero =>
            simp only [List.getElem?_cons_zero, Option.some_inj] at hky
            exact hky ▸ hlt
        | succ k' =>
            simp only [List.getElem?_cons_succ] at hky
            exact hfirst k' y (by omega) hky

/-! ### Properties of the modelled label dictionary -/

theorem dictGet_isSome_iff [DecidableEq L] (m : List (L × Nat)) (k : L) :
    (dictGet m k).isSome ↔ k ∈ m.map Prod.fst := by
  simp only [dictGet, Option.isSome_map', List.find?_isSome, List.mem_reverse,
    decide_eq_true_eq, List.mem_map]

theorem dictGet_mem [DecidableEq L] {m : List (L × Nat)} {k : L} {i : Nat}
    (h : dictGet m k = some i) : (k, i) ∈ m := by
  unfold dictGet at h
  rcases hf : m.reverse.find? (fun q => decide (q.1 = k)) with _ | q
  · rw [hf] at h
    simp at h
  · rw [hf] at h
    simp only [Option.map_some', Option.some_inj] at h
    have hq1 : q.1 = k := by simpa using List.find?_some hf
    have hqm : q ∈ m := List.mem_reverse.mp (List.mem_of_find?_eq_some hf)
    have hqe : q = (k, i) := by
      rw [Prod.ext_iff]
      exact ⟨hq1, h⟩
    rwa [hqe] at hqm

theorem mkEncoder_mapping_fst (labels : List L) :
    (mkEncoder labels).mapping.map Prod.fst = labels := by
  simp only [mkEncoder, List.map_map]
  exact List.enumFrom_map_snd 0 labels

theorem mem_mkEncoder_mapping (labels : List L) (k : L) (i : Nat) :
    (k, i) ∈ (mkEncoder labels).mapping ↔ labels[i]? = some k := by
  simp only [mkEncoder, List.mem_map]
  constructor
  · rintro ⟨⟨a, b⟩, hp, heq⟩
    simp only [Prod.mk.injEq] at heq
    obtain ⟨rfl, rfl⟩ := heq
    exact List.mk_mem_enum_iff_getElem?.mp hp
  · intro h
    exact ⟨(i, k), List.mk_mem_enum_iff_getElem?.mpr h, rfl⟩

/-- On a duplicate-free label list the dictionary maps each label to its
(unique) position. -/
theorem dictGet_mkEncoder_nodup [DecidableEq L] (labels : List L) (hnd : labels.Nodup)
    (i : Nat) (k : L) (hik : labels[i]? = some k) :
    dictGet (mkEncoder labels).mapping k = some i := by
  have hmem : k ∈ labels := List.getElem?_mem hik
  have hsome : (dictGet (mkEncoder labels).mapping k).isSome := by
    rw [dictGet_isSome_iff, mkEncoder_mapping_fst]
    exact hmem
  obtain ⟨j, hj⟩ := Option.isSome_iff_exists.mp hsome
  have hkj : labels[j]? = some k := (mem_mkEncoder_mapping labels k j).mp (dictGet_mem hj)
  have hi : i < labels.length := by
    rcases List.getElem?_eq_some.mp hik with ⟨h, _⟩
    exact h
  have : i = j := List.getElem?_inj hi hnd (by rw [hik, hkj])
  rw [hj, this]

theorem dictKeys_mkEncoder_nodup [DecidableEq L] (labels : List L) (hnd : labels.Nodup) :
    dictKeys (mkEncoder labels).mapping = labels := by
  unfold dictKeys
  rw [mkEncoder_mapping_fst]
  exact List.dedup_eq_self.mpr hnd

theorem find?_eq_some_of_unique {p : α → Bool} {l : List α} {a : α} (ha : a ∈ l)
    (hpa : p a = true) (huniq : ∀ x ∈ l, p x = true → x = a) : l.find? p = some a := by
  induction l with
  | nil => cases ha
  | cons x xs ih =>
      by_cases hx : p x = true
      · rw [List.find?_cons_of_pos _ hx, huniq x (List.mem_cons_self x xs) hx]
      · rw [List.find?_cons_of_neg _ hx]
        have ha' : a ∈ xs := by
          rcases List.mem_cons.mp ha with rfl | h
          · exact absurd hpa hx
          · exact h
        exact ih ha' fun y hy hpy => huniq y (List.mem_cons_of_mem _ hy) hpy

/-- On a duplicate-free label list, decoding through the inverted dictionary
recovers the label at the given column. -/
theorem decode_label_mkEncoder_nodup [DecidableEq L] (labels : List L)
    (hnd : labels.Nodup) (m : Nat) :
    decode_label (mkEncoder labels) m = labels[m]? := by
  unfold decode_label
  rw [dictKeys_mkEncoder_nodup labels hnd]
  rcases hm : labels[m]? with _ | k
  · rw [List.find?_eq_none]
    intro k hk
    simp only [decide_eq_true_eq]
    intro hcontra
    have := (mem_mkEncoder_mapping labels k m).mp (dictGet_mem hcontra)
    rw [hm] at this
    cases this
  · refine find?_eq_some_of_unique (List.getElem?_mem hm) ?_ ?_
    · simp only [decide_eq_true_eq]
      exact dictGet_mkEncoder_nodup labels hnd m k hm
    · intro x _ hpx
      simp only [decide_eq_true_eq] at hpx
      have := (mem_mkEncoder_mapping labels x m).mp (dictGet_mem hpx)
      rw [hm] at this
      exact (Option.some_inj.mp this).symm

/-! ### Selecting strictly increasing indices yields a sublist -/

theorem filterMap_getElem?_cons_shift {α : Type} (x : α) (pool' : List α) (s : List Nat)
    (h1 : ∀ j ∈ s, 1 ≤ j) :
    (s.filterMap fun j => (x :: pool')[j]?) =
      ((s.map fun j => j - 1).filterMap fun j => pool'[j]?) := by
  rw [List.filterMap_map]
  apply List.filterMap_congr
  intro j hj
  obtain ⟨j', rfl⟩ : ∃ j', j = j' + 1 := ⟨j - 1, by have := h1 j hj; omega⟩
  simp

theorem pairwise_lt_map_pred {s : List Nat} (hp : s.Pairwise (· < ·))
    (h1 : ∀ j ∈ s, 1 ≤ j) : (s.map fun j => j - 1).Pairwise (· < ·) := by
  rw [List.pairwise_map]
  refine hp.imp_of_mem ?_
  intro a b ha hb hab
  have := h1 a ha
  omega

/-- Selecting the elements of `pool` at a strictly increasing list of
positions produces a sublist of `pool`: the selection is without replacement
and preserves the original relative order. -/
theorem filterMap_getElem?_sublist {α : Type} :
    ∀ (pool : List α) (s : List Nat), s.Pairwise (· < ·) →
      List.Sublist (s.filterMap fun i => pool[i]?) pool
  | [], s, _ => by
      have h : (s.filterMap fun i => ([] : List α)[i]?) = [] :=
        List.filterMap_eq_nil_iff.mpr fun i _ => by simp
      simp [h]
  | x :: pool', s, hp => by
      cases s with
      | nil => exact List.nil_sublist _
      | cons i s' =>
        have hps' : s'.Pairwise (· < ·) := hp.of_cons
        have hgt : ∀ j ∈ s', i < j := fun j hj => List.rel_of_pairwise_cons hp hj
        cases i with
        | zero =>
            have h1 : ∀ j ∈ s', 1 ≤ j := fun j hj => hgt j hj
            rw [show ((0 :: s').filterMap fun j => (x :: pool')[j]?) =
                x :: (s'.filterMap fun j => (x :: pool')[j]?) from by
              simp [List.filterMap_cons]]
            rw [filterMap_getElem?_cons_shift x pool' s' h1]
            exact (filterMap_getElem?_sublist pool' (s'.map fun j => j - 1)
              (pairwise_lt_map_pred hps' h1)).cons₂ x
        | succ i' =>
            have h1 : ∀ j ∈ ((i' + 1) :: s'), 1 ≤ j := by
              intro j hj
              rcases List.mem_cons.mp hj with rfl | hj
              · omega
              · have := hgt j hj
                omega
            rw [filterMap_getElem?_cons_shift x pool' ((i' + 1) :: s') h1]
            exact (filterMap_getElem?_sublist pool' (((i' + 1) :: s').map fun j => j - 1)
              (pairwise_lt_map_pred hp h1)).cons x

/-! ### Concrete fixtures used to instantiate the theorems -/

/-- The spec's example per-instance prediction function, restricted to the two
inputs exercised below: scores `[7, 3]` for `"!"` and `[3, 7]` otherwise. -/
def gWitness : DT → List Int := fun s => if s = "!" then [7, 3] else [3, 7]

/-- A concrete adapter built through `from_callable`, as in the spec's
end-to-end example. -/
def cWitness : DeterministicTextClassifier Nat String Int :=
  DeterministicTextClassifier.from_callable gWitness ["punctuation", "no_punctuation"]

/-- Three concrete instances. -/
def instWitness : List (Instance Nat) := [⟨0, "!"⟩, ⟨1, "z"⟩, ⟨2, "a"⟩]

/-- A batched prediction function whose rows depend on the size of the batch
it receives: deterministic, yet not expressible per-instance. -/
def batchSensitive : DeterministicTextClassifier Nat String Int :=
  DeterministicTextClassifier.from_batched_callable
    (fun xs => xs.map fun _ => if xs.length = 1 then [1, 0] else [0, 1])
    ["punctuation", "no_punctuation"]

/-- Two concrete instances for the batch-sensitivity counterexample. -/
def twoInstances : List (Instance Nat) := [⟨0, "a"⟩, ⟨1, "b"⟩]

/-- A deterministic stand-in for `random.sample(range(n), r)` that draws the
last `r` indices. -/
def sampleW : Nat → Nat → List Nat := fun n r => (List.range n).drop (n - r)

/-! ### Claims -/

/-- Claim C1: the claim says `corrupt(s)` on a single string returns a string
one character longer with `s` as suffix.  The code checks
`isinstance(names, Iterable)` before the single-string fallthrough, and Python
strings are iterable, so a single string is corrupted character by character
and a *list* is returned: `corrupt("abc")` yields three two-character strings
(here with every `random.choice` returning `q`), never a string.  The
single-string branch of the source is unreachable. -/
theorem c1_corrupt_string_becomes_list :
    (∀ (rand : Nat → Char) (s : String), ∃ l : List String,
        corrupt rand (StrOrStrs.str s) = StrOrStrs.strs l ∧ l.length = s.length) ∧
    corrupt (fun _ => 'q') (StrOrStrs.str "abc") = StrOrStrs.strs ["qa", "qb", "qc"] := by
  constructor
  · intro rand s
    refine ⟨_, rfl, ?_⟩
    simp only [pyIterate, List.length_map, List.enum_length]
    rfl
  · decide

/-- Claim C2, counterexample: with the deterministic (but batch-sensitive)
prediction function of `batchSensitive`, batch sizes 1 and 2 give different
results for the same two instances, for both `predict_instances` and
`predict_proba_instances`: batching is observable. -/
theorem c2_batch_size_changes_output_cex :
    ¬ (batchSensitive.predict_instances twoInstances 1 =
          batchSensitive.predict_instances twoInstances 2 ∧
        batchSensitive.predict_proba_instances twoInstances 1 =
          batchSensitive.predict_proba_instances twoInstances 2) := by
  decide

/-- Claim C2 (amended): when the prediction function computes each row from
the corresponding instance alone (as every adapter built with `from_callable`
does), `predict_instances` and `predict_proba_instances` return identical
results for any two batch sizes `b1, b2 ≥ 1`. -/
theorem c2_batch_invariance_elementwise [LinearOrder R] [DecidableEq L]
    (c : DeterministicTextClassifier KT L R) (g : DT → List R)
    (hg : ∀ xs, c.predict_function xs = xs.map g)
    (l : List (Instance KT)) (b1 b2 : Nat) (hb1 : 1 ≤ b1) (hb2 : 1 ≤ b2) :
    c.predict_instances l b1 = c.predict_instances l b2 ∧
    c.predict_proba_instances l b1 = c.predict_proba_instances l b2 :=
  ⟨by rw [predict_instances_elementwise c g hg l b1 hb1,
      predict_instances_elementwise c g hg l b2 hb2],
    by rw [predict_proba_instances_elementwise c g hg l b1 hb1,
      predict_proba_instances_elementwise c g hg l b2 hb2]⟩

/-- Witness for the amended claim C2 at a concrete adapter, instance list and
batch sizes 1 and 2. -/
theorem c2_batch_invariance_elementwise_witness :
    cWitness.predict_instances instWitness 1 = cWitness.predict_instances instWitness 2 ∧
    cWitness.predict_proba_instances instWitness 1 =
      cWitness.predict_proba_instances instWitness 2 :=
  c2_batch_invariance_elementwise cWitness gWitness (fun _ => rfl) instWitness 1 2
    (by decide) (by decide)

/-- Claim C5: `fit_instances` and `fit_provider` are total functions that
return `None` and leave the adapter (prediction function and encoder)
unchanged, so prediction before and after any fit call coincides. -/
theorem c5_fit_noop [LinearOrder R] [DecidableEq L]
    (c : DeterministicTextClassifier KT L R)
    (instances : List (Instance KT)) (labels : List (List L))
    (provider : InstanceProvider KT) (plabels : List (KT × List L)) (bs : Nat) :
    c.fit_instances instances labels = (c, ()) ∧
    c.fit_provider provider plabels bs = (c, ()) ∧
    (∀ l b, ((c.fit_instances instances labels).1).predict_instances l b =
      c.predict_instances l b) ∧
    (∀ l b, ((c.fit_provider provider plabels bs).1).predict_instances l b =
      c.predict_instances l b) :=
  ⟨rfl, rfl, fun _ _ => rfl, fun _ _ => rfl⟩

/-- Claim C9: `set_target_labels` rebinds only the encoder: the stored
prediction function is unchanged and the raw (undecoded) output of
`predict_proba_instances_raw` is identical before and after the call. -/
theorem c9_set_target_labels_frame
    (c : DeterministicTextClassifier KT L R) (labels : List L) :
    (c.set_target_labels labels).predict_function = c.predict_function ∧
    ∀ inst b, (c.set_target_labels labels).predict_proba_instances_raw inst b =
      c.predict_proba_instances_raw inst b :=
  ⟨rfl, fun _ _ => rfl⟩

theorem zip_chain_fst_flatten {A B : Type} (L : List (List A × List B))
    (h : ∀ p ∈ L, p.1.length ≤ p.2.length) :
    (zip_chain L).map Prod.fst = (L.map Prod.fst).flatten := by
  unfold zip_chain
  rw [List.map_flatten, List.map_map]
  congr 1
  apply List.map_congr_left
  intro p hp
  exact List.map_fst_zip p.1 p.2 (h p hp)

/-- Claim C3: for every instance list and every batch size `b ≥ 1`, and any
prediction function returning one row per input (the data-model invariant),
`predict_instances` and `predict_proba_instances` return exactly one pair per
input instance, with the keys equal to the input identifiers in input order:
nothing is dropped or reordered. -/
theorem c3_one_output_per_instance_in_order [LinearOrder R] [DecidableEq L]
    (c : DeterministicTextClassifier KT L R)
    (hpf : ∀ xs, (c.predict_function xs).length = xs.length)
    (l : List (Instance KT)) (b : Nat) (hb : 1 ≤ b) :
    ((c.predict_instances l b).map Prod.fst = l.map Instance.identifier ∧
      (c.predict_instances l b).length = l.length) ∧
    ((c.predict_proba_instances l b).map Prod.fst = l.map Instance.identifier ∧
      (c.predict_proba_instances l b).length = l.length) := by
  have hfst : ∀ chunks : List (List (Instance KT)),
      (chunks.map c._pred_batch).map Prod.fst = chunks.map (List.map Instance.identifier) := by
    intro chunks
    rw [List.map_map]
    apply List.map_congr_left
    intro batch _
    rfl
  have hfstp : ∀ chunks : List (List (Instance KT)),
      (chunks.map c._pred_proba_batch).map Prod.fst =
        chunks.map (List.map Instance.identifier) := by
    intro chunks
    rw [List.map_map]
    apply List.map_congr_left
    intro batch _
    rfl
  have hlen : ∀ p ∈ (divide_iterable_in_lists l b).map c._pred_batch,
      p.1.length ≤ p.2.length := by
    intro p hp
    obtain ⟨batch, _, rfl⟩ := List.mem_map.mp hp
    simp [DeterministicTextClassifier._pred_batch,
      DeterministicTextClassifier._pred_proba_batch_raw, decode_matrix, hpf]
  have hlenp : ∀ p ∈ (divide_iterable_in_lists l b).map c._pred_proba_batch,
      p.1.length ≤ p.2.length := by
    intro p hp
    obtain ⟨batch, _, rfl⟩ := List.mem_map.mp hp
    simp [DeterministicTextClassifier._pred_proba_batch,
      DeterministicTextClassifier._pred_proba_batch_raw, decode_proba_matrix, hpf]
  have key1 : (c.predict_instances l b).map Prod.fst = l.map Instance.identifier := by
    unfold DeterministicTextClassifier.predict_instances
    rw [zip_chain_fst_flatten _ hlen, hfst, ← List.map_flatten,
      flatten_divide_iterable_in_lists _ _ hb]
  have key2 : (c.predict_proba_instances l b).map Prod.fst = l.map Instance.identifier := by
    unfold DeterministicTextClassifier.predict_proba_instances
    rw [zip_chain_fst_flatten _ hlenp, hfstp, ← List.map_flatten,
      flatten_divide_iterable_in_lists _ _ hb]
  refine ⟨⟨key1, ?_⟩, ⟨key2, ?_⟩⟩
  · rw [← List.length_map (c.predict_instances l b) Prod.fst, key1, List.length_map]
  · rw [← List.length_map (c.predict_proba_instances l b) Prod.fst, key2, List.length_map]

/-- Witness for claim C3 at a concrete adapter, three instances and batch
size 2. -/
theorem c3_one_output_per_instance_in_order_witness :
    ((cWitness.predict_instances instWitness 2).map Prod.fst =
        instWitness.map Instance.identifier ∧
      (cWitness.predict_instances instWitness 2).length = instWitness.length) ∧
    ((cWitness.predict_proba_instances instWitness 2).map Prod.fst =
        instWitness.map Instance.identifier ∧
      (cWitness.predict_proba_instances instWitness 2).length = instWitness.length) :=
  c3_one_output_per_instance_in_order cWitness (fun xs => List.length_map xs gWitness)
    instWitness 2 (by decide)

/-- Claim C4: for an adapter built with `from_callable` over a duplicate-free
label list, the entry produced for each instance pairs its identifier with the
label stored at the argmax column of that instance's score row, and that
column is the first maximum of the row: it bounds every score and every
earlier column is strictly smaller (ties break to the lowest column index). -/
theorem c4_predict_argmax_first_max [LinearOrder R] [DecidableEq L]
    (g : DT → List R) (labels : List L) (hnd : labels.Nodup)
    (l : List (Instance KT)) (b : Nat) (hb : 1 ≤ b)
    (j : Nat) (ins : Instance KT) (hj : l[j]? = some ins)
    (hrow : g ins.data ≠ []) :
    ((DeterministicTextClassifier.from_callable g labels).predict_instances l b)[j]? =
      some (ins.identifier, labels[argmaxIdx (g ins.data)]?) ∧
    isFirstMax (g ins.data) (argmaxIdx (g ins.data)) := by
  refine ⟨?_, argmaxIdx_isFirstMax _ hrow⟩
  rw [predict_instances_elementwise (DeterministicTextClassifier.from_callable g labels) g
    (fun _ => rfl) l b hb, List.getElem?_map, hj]
  have he : (DeterministicTextClassifier.from_callable g labels :
      DeterministicTextClassifier KT L R).encoder = mkEncoder labels := rfl
  rw [Option.map_some', he, decode_label_mkEncoder_nodup labels hnd]

/-- Witness for claim C4: the first instance of the concrete example, whose
row is `[7, 3]`, decodes to the label of column 0. -/
theorem c4_predict_argmax_first_max_witness :
    (cWitness.predict_instances instWitness 2)[0]? =
      some ((0 : Nat), (["punctuation", "no_punctuation"] : List String)[argmaxIdx
        (gWitness "!")]?) ∧
    isFirstMax (gWitness "!") (argmaxIdx (gWitness "!")) :=
  c4_predict_argmax_first_max gWitness ["punctuation", "no_punctuation"] (by decide)
    instWitness 2 (by decide) 0 ⟨0, "!"⟩ (by decide) (by decide)

theorem filterMap_getElem?_length {α : Type} (pool : List α) (s : List Nat)
    (h : ∀ i ∈ s, i < pool.length) :
    (s.filterMap fun i => pool[i]?).length = s.length := by
  induction s with
  | nil => rfl
  | cons i s' ih =>
      have hi : i < pool.length := h i (List.mem_cons_self i s')
      simp only [List.filterMap_cons, List.getElem?_eq_getElem hi, List.length_cons]
      rw [ih fun j hj => h j (List.mem_cons_of_mem _ hj)]

/-- Claim C6: for every finite sequence and every integer `start`, and any
valid outcome of `random.sample` (the right number of distinct in-range
indices), `random_combinations` returns one combination per size from
`clamp(start, 0, len)` to `len` inclusive, in increasing order of size, each
an order-preserving selection without replacement from the pool; and on the
empty pool with `start = 1` the result is `[[]]` for every sampler. -/
theorem c6_random_combinations_spec {α : Type} (pool : List α) (start : Int)
    (sample : Nat → Nat → List Nat)
    (hs : ∀ r, r ≤ pool.length → (sample pool.length r).length = r ∧
      (sample pool.length r).Nodup ∧ ∀ i ∈ sample pool.length r, i < pool.length) :
    ((random_combinations pool start sample).length =
        pool.length + 1 - min pool.length (max 0 start).toNat) ∧
    (∀ k c, (random_combinations pool start sample)[k]? = some c →
        c.length = min pool.length (max 0 start).toNat + k ∧ List.Sublist c pool) ∧
    (∀ sample2 : Nat → Nat → List Nat,
        random_combinations ([] : List α) 1 sample2 = [[]]) := by
  refine ⟨?_, ?_, ?_⟩
  · simp [random_combinations]
  · intro k c hk
    unfold random_combinations at hk
    rw [List.getElem?_map] at hk
    have hkoff : k < pool.length + 1 - min pool.length (max 0 start).toNat := by
      by_contra hge
      rw [List.getElem?_eq_none (by simpa using hge)] at hk
      simp at hk
    rw [List.getElem?_range' _ _ hkoff] at hk
    simp only [Option.map_some', Option.some_inj] at hk
    subst hk
    have hone : min pool.length (max 0 start).toNat + 1 * k =
        min pool.length (max 0 start).toNat + k := by omega
    rw [hone]
    have hr0 : min pool.length (max 0 start).toNat + k ≤ pool.length := by omega
    obtain ⟨hlen, hnd, hbound⟩ := hs (min pool.length (max 0 start).toNat + k) hr0
    have hperm := List.perm_insertionSort (· ≤ ·)
      (sample pool.length (min pool.length (max 0 start).toNat + k))
    have ht_len := hperm.length_eq.trans hlen
    have ht_nd := hperm.nodup_iff.mpr hnd
    have ht_bound : ∀ i ∈ List.insertionSort (· ≤ ·)
        (sample pool.length (min pool.length (max 0 start).toNat + k)),
        i < pool.length := fun i hi => hbound i (hperm.subset hi)
    have ht_sorted := List.sorted_insertionSort (· ≤ ·)
      (sample pool.length (min pool.length (max 0 start).toNat + k))
    have ht_lt : (List.insertionSort (· ≤ ·)
        (sample pool.length (min pool.length (max 0 start).toNat + k))).Pairwise
          (· < ·) :=
      (ht_sorted.and ht_nd).imp fun h => lt_of_le_of_ne h.1 h.2
    constructor
    · rw [random_combination, filterMap_getElem?_length pool _ ht_bound, ht_len]
    · exact filterMap_getElem?_sublist pool _ ht_lt
  · intro sample2
    have h : (List.insertionSort (· ≤ ·) (sample2 0 0)).filterMap
        (fun i => ([] : List α)[i]?) = [] :=
      List.filterMap_eq_nil_iff.mpr fun i _ => by simp
    simp [random_combinations, random_combination, List.range', h]

/-- Witness for claim C6 with the three-element pool `[10, 20, 30]`,
`start = 1` and the deterministic sampler `sampleW`. -/
theorem c6_random_combinations_spec_witness :
    ((random_combinations ([10, 20, 30] : List Nat) 1 sampleW).length =
        [10, 20, 30].length + 1 - min [10, 20, 30].length (max 0 (1 : Int)).toNat) ∧
    random_combinations ([] : List Nat) 1 sampleW = [[]] := by
  have h := c6_random_combinations_spec ([10, 20, 30] : List Nat) 1 sampleW
    (by decide)
  exact ⟨h.1, h.2.2 sampleW⟩

/-- Claim C7: `get_label_column_index` succeeds exactly on the labels of the
current label set; a successful lookup returns a column index at which the
label list holds that label, and an unknown label yields the modelled
`KeyError` (`none`), the only failure the adapter itself can raise. -/
theorem c7_get_label_column_index_spec [DecidableEq L]
    (c : DeterministicTextClassifier KT L R) (labels : List L)
    (he : c.encoder = mkEncoder labels) (label : L) :
    ((c.get_label_column_index label).isSome ↔ label ∈ labels) ∧
    (∀ i, c.get_label_column_index label = some i → labels[i]? = some label) ∧
    (label ∉ labels → c.get_label_column_index label = none) := by
  unfold DeterministicTextClassifier.get_label_column_index
  rw [he]
  refine ⟨?_, ?_, ?_⟩
  · rw [dictGet_isSome_iff, mkEncoder_mapping_fst]
  · intro i h
    exact (mem_mkEncoder_mapping labels label i).mp (dictGet_mem h)
  · intro hnot
    rcases h : dictGet (mkEncoder labels).mapping label with _ | i
    · rfl
    · exact absurd (List.getElem?_mem
        ((mem_mkEncoder_mapping labels label i).mp (dictGet_mem h))) hnot

/-- Witness for claim C7: a known label succeeds, an unknown label fails. -/
theorem c7_get_label_column_index_spec_witness :
    ((cWitness.get_label_column_index "punctuation").isSome ↔
      "punctuation" ∈ (["punctuation", "no_punctuation"] : List String)) ∧
    cWitness.get_label_column_index "other" = none :=
  ⟨(c7_get_label_column_index_spec cWitness ["punctuation", "no_punctuation"] rfl
      "punctuation").1,
    (c7_get_label_column_index_spec cWitness ["punctuation", "no_punctuation"] rfl
      "other").2.2 (by decide)⟩

/-- Claim C8, counterexample: the claim quantifies over every iterable of
labels, but after `set_target_labels(["a", "a"])` the duplicate key leaves
only column index 1 assigned (the dict comprehension overwrites index 0), so
the set of assigned indices is not contiguous from 0. -/
theorem c8_duplicate_labels_cex :
    (∃ label ∈ (["a", "a"] : List String),
        dictGet ((cWitness.set_target_labels ["a", "a"]).encoder).mapping label =
          some 1) ∧
    ¬ (∃ label ∈ (["a", "a"] : List String),
        dictGet ((cWitness.set_target_labels ["a", "a"]).encoder).mapping label =
          some 0) := by
  decide

/-- Claim C8 (amended): after `set_target_labels(labels)` with a
duplicate-free label list — as an ordered set of target labels is — every
label is mapped to exactly one column index and the assigned indices are
exactly `0, …, len - 1`, contiguous from 0. -/
theorem c8_encoder_bijection_contiguous [DecidableEq L]
    (c : DeterministicTextClassifier KT L R) (labels : List L) (hnd : labels.Nodup) :
    (∀ label ∈ labels, ∃! i : Nat,
        dictGet ((c.set_target_labels labels).encoder).mapping label = some i) ∧
    (∀ i : Nat, (∃ label ∈ labels,
        dictGet ((c.set_target_labels labels).encoder).mapping label = some i) ↔
      i < labels.length) := by
  have he : (c.set_target_labels labels).encoder = mkEncoder labels := rfl
  rw [he]
  constructor
  · intro label hmem
    have hsome : (dictGet (mkEncoder labels).mapping label).isSome := by
      rw [dictGet_isSome_iff, mkEncoder_mapping_fst]
      exact hmem
    obtain ⟨i, hi⟩ := Option.isSome_iff_exists.mp hsome
    exact ⟨i, hi, fun j hj => by rw [hi] at hj; exact (Option.some_inj.mp hj).symm⟩
  · intro i
    constructor
    · rintro ⟨label, _, hsome⟩
      have hmem := (mem_mkEncoder_mapping labels label i).mp (dictGet_mem hsome)
      exact (List.getElem?_eq_some.mp hmem).1
    · intro hi
      exact ⟨labels[i], List.getElem_mem hi,
        dictGet_mkEncoder_nodup labels hnd i labels[i] (List.getElem?_eq_getElem hi)⟩

/-- Witness for the amended claim C8 on the duplicate-free list
`["x", "y"]`: index 1 is assigned and index 2 is not. -/
theorem c8_encoder_bijection_contiguous_witness :
    ((∃ label ∈ (["x", "y"] : List String),
        dictGet ((cWitness.set_target_labels ["x", "y"]).encoder).mapping label =
          some 1) ↔ 1 < (["x", "y"] : List String).length) ∧
    ((∃ label ∈ (["x", "y"] : List String),
        dictGet ((cWitness.set_target_labels ["x", "y"]).encoder).mapping label =
          some 2) ↔ 2 < (["x", "y"] : List String).length) :=
  ⟨(c8_encoder_bijection_contiguous cWitness ["x", "y"] (by decide)).2 1,
    (c8_encoder_bijection_contiguous cWitness ["x", "y"] (by decide)).2 2⟩

/-- Claim C10: for `n` instances and batch size `b ≥ 1`,
`predict_proba_instances_raw` yields exactly `⌈n / b⌉` pairs, the `k`-th pair
being the `k`-th batch's identifiers in order together with the prediction
function's verbatim output matrix on that batch's data, with no decoding. -/
theorem c10_raw_batches_spec (c : DeterministicTextClassifier KT L R)
    (l : List (Instance KT)) (b : Nat) (hb : 1 ≤ b) :
    (c.predict_proba_instances_raw l b).length = (l.length + b - 1) / b ∧
    ∀ k, k < (c.predict_proba_instances_raw l b).length →
      (c.predict_proba_instances_raw l b)[k]? =
        some (((l.drop (k * b)).take b).map Instance.identifier,
          c.predict_function (((l.drop (k * b)).take b).map Instance.data)) := by
  unfold DeterministicTextClassifier.predict_proba_instances_raw
  constructor
  · rw [List.length_map, length_divide_iterable_in_lists l b hb]
  · intro k hk
    rw [List.length_map] at hk
    rw [List.getElem?_map, getElem?_divide_iterable_in_lists l b k hb hk]
    rfl

/-- Witness for claim C10 with three instances and batch size 2: two batches,
the first being the first two instances. -/
theorem c10_raw_batches_spec_witness :
    (cWitness.predict_proba_instances_raw instWitness 2).length =
      (instWitness.length + 2 - 1) / 2 ∧
    (cWitness.predict_proba_instances_raw instWitness 2)[0]? =
      some (((instWitness.drop (0 * 2)).take 2).map Instance.identifier,
        cWitness.predict_function (((instWitness.drop (0 * 2)).take 2).map
          Instance.data)) := by
  have h := c10_raw_batches_spec cWitness instWitness 2 (by decide)
  refine ⟨h.1, h.2 0 ?_⟩
  rw [h.1]
  decide

end GenbaseTestHelpers
